import Mathlib

/-!
Shallow embedding of the `stream-nexus` broadcast hub (src/web/server.rs and
the modules it uses) for checking the natural-language specification.

Modelling conventions:
* Rust `String` text is modelled as `List Char` (`Str` below); Rust
  `str::replace` is modelled by `replaceAll`.
* `Uuid` and `usize` values are modelled as `Nat`; `i64` timestamps as `Int`.
* `f64` monetary amounts are modelled as `Rat`: every claim proved below
  depends only on sign tests against zero and on the converted value being
  the very expression the code computes, never on rounding behaviour.
* `HashMap` fields are modelled as association lists holding the map's
  entries in its (unspecified) iteration order; `ainsert` replaces the value
  in place on an existing key exactly as `HashMap::insert` does, and appends
  a fresh key at the end, which is one achievable iteration order.
* `rand::random` results are oracle inputs (explicit parameters).
-/

/-- Text of a Rust `String`, as a list of characters. -/
abbrev Str := List Char

/-- The apostrophe character, `'`. -/
def aposChar : Char := Char.ofNat 39

/-- Fuel-driven worker for `replaceAll`; fuel bounds the number of scanned
positions, and `replaceAll` supplies enough fuel to scan the whole input. -/
def replaceAllGo (find repl : Str) : Nat → Str → Str
  | 0, s => s
  | _ + 1, [] => []
  | fuel + 1, c :: rest =>
    if find.isPrefixOf (c :: rest) then
      repl ++ replaceAllGo find repl fuel ((c :: rest).drop find.length)
    else
      c :: replaceAllGo find repl fuel rest

/-- Model of Rust `str::replace`: replaces every non-overlapping occurrence
of `find`, scanning left to right.  No call site in the repository passes an
empty pattern; for an empty `find` the model returns the input unchanged. -/
def replaceAll (s find repl : Str) : Str :=
  if find = [] then s else replaceAllGo find repl s.length s

/-- Fuel-driven worker for `countOccs`. -/
def countOccsGo (pat : Str) : Nat → Str → Nat
  | 0, _ => 0
  | _ + 1, [] => 0
  | fuel + 1, c :: rest =>
    if pat.isPrefixOf (c :: rest) then
      1 + countOccsGo pat fuel ((c :: rest).drop pat.length)
    else
      countOccsGo pat fuel rest

/-- Number of non-overlapping occurrences of `pat` in `s`, scanning left to
right (the occurrences `str::replace` would rewrite). -/
def countOccs (s pat : Str) : Nat :=
  if pat = [] then 0 else countOccsGo pat s.length s

/-- The five-step HTML escape the hub applies to `username`, `message` and
every emoji URL, in the fixed source order `& " ' < >` (server.rs:152-167).
The replacement text for a double quote is `&quot` exactly as written in the
source (no trailing semicolon). -/
def escapeHtml (s : Str) : Str :=
  replaceAll (replaceAll (replaceAll (replaceAll (replaceAll s
    "&".data "&amp;".data)
    "\"".data "&quot".data)
    [aposChar] "&#039;".data)
    "<".data "&lt;".data)
    ">".data "&gt;".data

/-- The `Message` record of src/message.rs (chat or paid event). -/
structure ChatMessage where
  id : Nat
  platform : Str
  sent_at : Int
  received_at : Int
  is_placeholder : Bool
  message : Str
  emojis : List (Str × Str × Str)
  username : Str
  avatar : Str
  amount : Rat
  currency : Str
  is_verified : Bool
  is_sub : Bool
  is_mod : Bool
  is_owner : Bool
  is_staff : Bool
deriving DecidableEq

/-- Association-list lookup, standing for `HashMap::get`. -/
def alookup {κ α : Type} [DecidableEq κ] : List (κ × α) → κ → Option α
  | [], _ => none
  | (k2, v) :: rest, k => if k2 = k then some v else alookup rest k

/-- Association-list insert, standing for `HashMap::insert`: an existing key
keeps its position and has its value replaced, a fresh key is appended. -/
def ainsert {κ α : Type} [DecidableEq κ] : List (κ × α) → κ → α → List (κ × α)
  | [], k, v => [(k, v)]
  | (k2, v2) :: rest, k, v =>
    if k2 = k then (k, v) :: rest else (k2, v2) :: ainsert rest k v

/-- Association-list removal, standing for `HashMap::remove`. -/
def aerase {κ α : Type} [DecidableEq κ] : List (κ × α) → κ → List (κ × α)
  | [], _ => []
  | (k2, v2) :: rest, k => if k2 = k then rest else (k2, v2) :: aerase rest k

/-- `ExchangeRates::get_usd` (src/exchange.rs:16-30): `"USD"` passes the
amount through, a known currency multiplies by the stored rate, an unknown
currency yields `0.0` with only a logged warning. -/
def getUsd (rates : List (Str × Rat)) (currency : Str) (amount : Rat) : Rat :=
  if currency = "USD".data then amount
  else
    match alookup rates currency with
    | some rate => amount * rate
    | none => 0

/-- Registry entry of src/web/server.rs:13-20.  The outbound `Recipient` is
an opaque send handle, modelled as a bare `Nat` identity. -/
structure Connection where
  id : Nat
  recipient : Nat
  subscribed_layout : Option Str
deriving DecidableEq

/-- Layout record of src/layout.rs:333-341.  Broadcast routing reads only
`name`; the remaining configuration (`version`, `elements`, `message_style`)
is irrelevant to every hub claim and collapsed into one opaque `body`. -/
structure Layout where
  name : Str
  body : Nat
deriving DecidableEq

/-- State of the `ChatServer` actor (src/web/server.rs:23-34).  `cacheCap`
models the backing capacity of the `chat_messages` hash map; `layout_store`
models the name-indexed on-disk layout store behind the
`Arc<Mutex<LayoutManager>>`, and `database` the SQLite paid-message table
keyed by message id. -/
structure ChatServer where
  clients : List (Nat × Connection)
  chat_messages : List (Nat × ChatMessage)
  cacheCap : Nat
  exchange_rates : List (Str × Rat)
  viewer_counts : List (Str × Nat)
  active_layout : Str
  featured_message : Option ChatMessage
  database : List (Nat × ChatMessage)
  layout_store : List (Str × Layout)
deriving DecidableEq

/-- Token text `format!("<{}>", key)` used for one emoji occurrence
(server.rs:187,193). -/
def tokenOf (key : Nat) : Str :=
  '<' :: (toString key).data ++ [ '>' ]

/-- Rendered markup `format!("<img class=\"emoji\" src=\"{}\" data-emoji=\"{}\" alt=\"{}\" />", url, name, name)` (server.rs:183-186). -/
def emojiMarkup (url name : Str) : Str :=
  "<img class=\"emoji\" src=\"".data ++ url ++ "\" data-emoji=\"".data ++ name
    ++ "\" alt=\"".data ++ name ++ "\" />".data

/-- One iteration of the tokenizing loop (server.rs:175-189): HTML-escape the
emoji URL, replace every occurrence of `find` by the token of the drawn
random `key`, and record `key ↦ markup` in the replacements map. -/
def tokenizeStep (acc : Str × List (Nat × Str)) (e : Str × Str × Str) (key : Nat) :
    Str × List (Nat × Str) :=
  let url := escapeHtml e.2.1
  let value := emojiMarkup url e.2.2
  (replaceAll acc.1 e.1 (tokenOf key), ainsert acc.2 key value)

/-- Phase one of the emoji pipeline: fold `tokenizeStep` over the emoji list,
pairing each emoji with its `rand::random` key (oracle input `keys`; the
program draws one fresh key per emoji, so callers supply at least
`emojis.length` keys). -/
def tokenizePhase (emojis : List (Str × Str × Str)) (keys : List Nat) (s : Str) :
    Str × List (Nat × Str) :=
  (emojis.zip keys).foldl (fun acc ek => tokenizeStep acc ek.1 ek.2) (s, [])

/-- Phase two of the emoji pipeline (server.rs:192-194): replace every token
with its recorded markup.  The source iterates a `HashMap` in unspecified
order; the model iterates the replacement entries in insertion order, one
achievable iteration order. -/
def applyReplacements (s : Str) (reps : List (Nat × Str)) : Str :=
  reps.foldl (fun acc kv => replaceAll acc (tokenOf kv.1) kv.2) s

/-- Handler for `message::Connect` (server.rs:119-136): draw a random id
(oracle input), insert an unsubscribed `Connection`, return the id.  No
collision check is performed: `HashMap::insert` replaces an existing entry
with the same key. -/
def handleConnect (st : ChatServer) (id : Nat) (recipient : Nat) : ChatServer × Nat :=
  ({ st with clients := ainsert st.clients id ⟨id, recipient, none⟩ }, id)

/-- Handler for `message::Disconnect` (server.rs:231-238): remove the client
entry, if present. -/
def handleDisconnect (st : ChatServer) (id : Nat) : ChatServer :=
  { st with clients := aerase st.clients id }

/-- Handler for `message::SubscribeLayout` (server.rs:513-526): if the client
is registered, overwrite its `subscribed_layout`. -/
def handleSubscribeLayout (st : ChatServer) (client_id : Nat) (layout_name : Str) :
    ChatServer :=
  match alookup st.clients client_id with
  | none => st
  | some conn =>
    { st with clients :=
        ainsert st.clients client_id { conn with subscribed_layout := some layout_name } }

/-- Handler for `message::Content` (server.rs:139-228), the ingest pipeline:
currency conversion gated on `amount > 0`, HTML escaping of username and
message, the two-phase emoji substitution, overwrite of `amount`/`currency`,
broadcast of the finished message to every client, cache insert keyed by the
message id (growing the backing capacity by 100 when nearly full), and a
database upsert only when the converted USD amount is positive.  Returns the
new state, the stored/broadcast message, and the recipient ids. -/
def handleContent (st : ChatServer) (msg : ChatMessage) (keys : List Nat) :
    ChatServer × ChatMessage × List Nat :=
  let usd := if msg.amount > 0 then getUsd st.exchange_rates msg.currency msg.amount else 0
  let username2 := escapeHtml msg.username
  let message2 := escapeHtml msg.message
  let tok := tokenizePhase msg.emojis keys message2
  let finalMessage := applyReplacements tok.1 tok.2
  let chat_msg := { msg with
    username := username2
    message := finalMessage
    amount := usd
    currency := "USD".data }
  let targets := st.clients.map (fun c => c.1)
  let cap2 := if st.chat_messages.length ≥ st.cacheCap - 1 then
      st.chat_messages.length + 100
    else st.cacheCap
  let cache2 := ainsert st.chat_messages msg.id chat_msg
  let db2 := if usd > 0 then ainsert st.database msg.id chat_msg else st.database
  ({ st with chat_messages := cache2, cacheCap := cap2, database := db2 }, chat_msg, targets)

/-- Resolution step of the feature handler (server.rs:247-254): in-memory
cache first, then the database. -/
def resolveFeatured (st : ChatServer) (id : Nat) : Option ChatMessage :=
  match alookup st.chat_messages id with
  | some m => some m
  | none => alookup st.database id

/-- Handler for `message::FeatureMessage` (server.rs:242-286): resolve the
optional id, store the result as the featured message, broadcast a
`feature_message` payload to every client, and return the resolved message.
The broadcast payload is `chat_msg.to_json()` when featuring and `"null"`
when unfeaturing — a pure function of the resolved message, modelled by the
`Option ChatMessage` itself. -/
def handleFeatureMessage (st : ChatServer) (idOpt : Option Nat) :
    ChatServer × Option ChatMessage × Option ChatMessage × List Nat :=
  let featured_msg := match idOpt with
    | some id => resolveFeatured st id
    | none => none
  let st2 := { st with featured_message := featured_msg }
  (st2, featured_msg, featured_msg, st.clients.map (fun c => c.1))

/-- Receipt-time comparison used by `sort_by_key(|msg| msg.received_at)`. -/
def receivedLe (a b : ChatMessage) : Prop :=
  a.received_at ≤ b.received_at

instance : DecidableRel receivedLe :=
  fun a b => (inferInstance : Decidable (a.received_at ≤ b.received_at))

instance : IsTotal ChatMessage receivedLe :=
  ⟨fun a b => Int.le_total a.received_at b.received_at⟩

instance : IsTrans ChatMessage receivedLe :=
  ⟨fun _ _ _ => Int.le_trans⟩

/-- Handler for `message::RecentMessages` (server.rs:298-319): when at least
`MAX_MESSAGES = 100` messages are cached, take the key sequence in map
iteration order, drop all but the last 100 keys and look each up; otherwise
take every cached value.  Finally sort ascending by `received_at`.
`Vec::sort_by_key` is a stable sort and the stable-sorted result is unique,
so it is modelled by the stable `List.insertionSort`. -/
def handleRecentMessages (cache : List (Nat × ChatMessage)) : List ChatMessage :=
  let base :=
    if cache.length ≥ 100 then
      ((cache.map Prod.fst).drop (cache.length - 100)).filterMap (fun id => alookup cache id)
    else
      cache.map Prod.snd
  base.insertionSort receivedLe

/-- Recipient ids selected by `ChatServer::broadcast_layout`
(server.rs:83-103): clients with no subscription, and clients subscribed to
exactly this layout's name. -/
def broadcastLayoutTargets (clients : List (Nat × Connection)) (layout : Layout) :
    List Nat :=
  (clients.filter (fun c =>
    match c.2.subscribed_layout with
    | none => true
    | some subscribed => subscribed == layout.name)).map (fun c => c.1)

/-- Handler for `message::LayoutUpdate` (server.rs:410-417): broadcast only. -/
def handleLayoutUpdate (st : ChatServer) (layout : Layout) : List Nat :=
  broadcastLayoutTargets st.clients layout

/-- Handler for `message::SwitchLayout` (server.rs:420-435): load the named
layout from the store (propagating a load failure as `Except.error`), set it
active, and broadcast it. -/
def handleSwitchLayout (st : ChatServer) (name : Str) :
    Except Str Unit × ChatServer × List Nat :=
  match alookup st.layout_store name with
  | none => (Except.error ("Failed to read layout file: ".data ++ name), st, [])
  | some layout =>
    (Except.ok (), { st with active_layout := name },
      broadcastLayoutTargets st.clients layout)

/-- Handler for `message::SaveLayout` (server.rs:438-452), success path:
write the layout to the store and broadcast it.  (`LayoutManager::save`
compiles SCSS into the stored copy; the broadcast carries `msg.layout` as in
the source, and the stored body is opaque here.) -/
def handleSaveLayout (st : ChatServer) (layout : Layout) :
    Except Str Unit × ChatServer × List Nat :=
  (Except.ok (),
    { st with layout_store := ainsert st.layout_store layout.name layout },
    broadcastLayoutTargets st.clients layout)

/-- Handler for `message::DeleteLayout` (server.rs:455-470): deleting the
active layout is rejected up front with a descriptive error, before the
store is touched; otherwise the store delete runs.  The `Bool` component
records whether `LayoutManager::delete` was invoked. -/
def handleDeleteLayout (st : ChatServer) (name : Str) :
    Except Str Unit × ChatServer × Bool :=
  if name = st.active_layout then
    (Except.error "Cannot delete the active layout".data, st, false)
  else
    match alookup st.layout_store name with
    | none => (Except.error ("Failed to delete layout file: ".data ++ name), st, true)
    | some _ =>
      (Except.ok (), { st with layout_store := aerase st.layout_store name }, true)

/-- One inbound hub event, for reasoning about arbitrary operation
sequences.  Random draws (`connect` id, `content` emoji keys) appear as
oracle data inside the event. -/
inductive HubOp where
  | connect (id : Nat) (recipient : Nat)
  | disconnect (id : Nat)
  | content (msg : ChatMessage) (keys : List Nat)
  | feature (idOpt : Option Nat)
  | subscribe (client_id : Nat) (layout_name : Str)
  | layoutUpdate (layout : Layout)
  | switchLayout (name : Str)
  | saveLayout (layout : Layout)
  | deleteLayout (name : Str)

/-- Apply one event to the hub state, discarding replies and broadcasts. -/
def applyOp (st : ChatServer) : HubOp → ChatServer
  | .connect id r => (handleConnect st id r).1
  | .disconnect id => handleDisconnect st id
  | .content msg keys => (handleContent st msg keys).1
  | .feature idOpt => (handleFeatureMessage st idOpt).1
  | .subscribe cid name => handleSubscribeLayout st cid name
  | .layoutUpdate _ => st
  | .switchLayout name => (handleSwitchLayout st name).2.1
  | .saveLayout layout => (handleSaveLayout st layout).2.1
  | .deleteLayout name => (handleDeleteLayout st name).2.1

/-- Run a sequence of events. -/
def runOps (st : ChatServer) (ops : List HubOp) : ChatServer :=
  ops.foldl applyOp st

/-- Hub state right after `ChatServer::new` on a fresh installation: no
clients, an empty paid-message database and hence an empty seeded cache
(capacity 0), active layout `"default"`. -/
def initialHub (rates : List (Str × Rat)) (store : List (Str × Layout)) : ChatServer :=
  { clients := []
    chat_messages := []
    cacheCap := 0
    exchange_rates := rates
    viewer_counts := []
    active_layout := "default".data
    featured_message := none
    database := []
    layout_store := store }

/-- A minimal chat message holding index `n` as id and receipt time; all
text fields empty, amount zero. -/
def mkMsg (n : Nat) : ChatMessage :=
  { id := n
    platform := []
    sent_at := 0
    received_at := (n : Int)
    is_placeholder := false
    message := []
    emojis := []
    username := []
    avatar := []
    amount := 0
    currency := []
    is_verified := false
    is_sub := false
    is_mod := false
    is_owner := false
    is_staff := false }

/-- Ingest events for `mkMsg 0 … mkMsg (n-1)`, in order. -/
def contentOps (n : Nat) : List HubOp :=
  (List.range n).map (fun i => HubOp.content (mkMsg i) [])

/-- The empty hub used by concrete scenarios: no rates, no stored layouts. -/
def emptyHub : ChatServer := initialHub [] []

/-- Concrete fixture: an unpaid message whose currency is the source's
`"ZWL"` default. -/
def msgZWL : ChatMessage := { mkMsg 3 with currency := "ZWL".data }

/-- Concrete fixture: a EUR rate table with EUR→USD = 1.08. -/
def ratesEUR : List (Str × Rat) := [("EUR".data, (108 : Rat) / 100)]

/-- Concrete fixture: a hub knowing only the EUR rate. -/
def stEUR : ChatServer := { emptyHub with exchange_rates := ratesEUR }

/-- Concrete fixture: a paid message of 5 EUR. -/
def msgEUR : ChatMessage := { mkMsg 4 with amount := 5, currency := "EUR".data }

/-- Concrete fixture: a cache of 101 entries whose map iteration order ends
with the oldest message (receipt time 1), preceded by messages with receipt
times 2..101.  Keys are the receipt times; all keys are distinct. -/
def cache101 : List (Nat × ChatMessage) :=
  (List.range 100).map (fun i => (i + 2, mkMsg (i + 2))) ++ [(1, mkMsg 1)]

/-- Concrete fixture for the emoji counterexample: the second emoji's find
pattern `<` collides with the token delimiter of the first emoji's token. -/
def msgC4 : ChatMessage := { mkMsg 9 with
  message := "a x b".data
  emojis := [("x".data, "u".data, "n".data), ("<".data, "u2".data, "n2".data)] }

/-- Concrete fixture for the nested-pattern scenario: the second emoji's URL
and name both contain the first emoji's find pattern `:a:`. -/
def msgC4b : ChatMessage := { mkMsg 10 with
  message := "hello :a: and :b:".data
  emojis := [(":a:".data, "urlA".data, "nameA".data),
             (":b:".data, "x:a:y".data, "n:a:".data)] }

/-- Concrete fixture: the sanitization example message, with no emojis. -/
def msgHtml : ChatMessage := { mkMsg 5 with message := "<b>hi</b>".data }

/-- Concrete fixture: connection A, unsubscribed. -/
def connA : Connection := { id := 1, recipient := 11, subscribed_layout := none }

/-- Concrete fixture: connection B, subscribed to layout `alt`. -/
def connB : Connection := { id := 2, recipient := 22, subscribed_layout := some "alt".data }

/-- Concrete fixture: the stored `alt` layout. -/
def layoutAlt : Layout := { name := "alt".data, body := 0 }

/-- Concrete fixture: the stored `default` layout. -/
def layoutDefault : Layout := { name := "default".data, body := 1 }

/-- Concrete fixture: a hub with connections A and B and two stored layouts. -/
def stC7 : ChatServer := { emptyHub with
  clients := [(1, connA), (2, connB)]
  layout_store := [("alt".data, layoutAlt), ("default".data, layoutDefault)] }

/-- Concrete fixture: a message of amount 2 in the unknown currency `BTC`. -/
def msgBTC : ChatMessage := { mkMsg 6 with amount := 2, currency := "BTC".data }

/-- Concrete fixture: a hub with one client and the EUR-only rate table. -/
def stBTC : ChatServer := { emptyHub with
  exchange_rates := ratesEUR
  clients := [(1, connA)] }

/-- Concrete fixture: a hub caching `mkMsg 7`, with one client. -/
def stFeat : ChatServer := { emptyHub with
  chat_messages := [(7, mkMsg 7)]
  clients := [(1, connA)] }

/-- Concrete fixture for the emoji counterexample without `<` in any find
pattern: the second emoji's find pattern `1>` overlaps the tail of the first
emoji's token `<1>`. -/
def msgC4c : ChatMessage := { mkMsg 11 with
  message := "a x b".data
  emojis := [("x".data, "u".data, "n".data), ("1>".data, "u2".data, "n2".data)] }

/-- Concrete fixture for the single-emoji statement: the emoji's own name
contains its find pattern `:a:`. -/
def msgC4d : ChatMessage := { mkMsg 12 with
  message := "go :a: go".data
  emojis := [(":a:".data, "u&rl".data, "n:a:me".data)] }

/-- Looking up the key just inserted returns the inserted value. -/
theorem alookup_ainsert_self {κ α : Type} [DecidableEq κ] (l : List (κ × α)) (k : κ) (v : α) :
    alookup (ainsert l k v) k = some v := by
  induction l with
  | nil => simp [ainsert, alookup]
  | cons hd tl ih =>
    obtain ⟨k2, v2⟩ := hd
    by_cases h : k2 = k
    · subst h
      simp [ainsert, alookup]
    · simp [ainsert, alookup, h, ih]

/-- A successful lookup exhibits a member of the association list. -/
theorem alookup_eq_some_mem {κ α : Type} [DecidableEq κ] {l : List (κ × α)} {k : κ} {v : α}
    (h : alookup l k = some v) : (k, v) ∈ l := by
  induction l with
  | nil => simp [alookup] at h
  | cons hd tl ih =>
    obtain ⟨k2, v2⟩ := hd
    by_cases hk : k2 = k
    · subst hk
      simp only [alookup, if_true, eq_self_iff_true, Option.some.injEq] at h
      subst h
      exact List.mem_cons_self _ _
    · simp only [alookup, if_neg hk] at h
      exact List.mem_cons_of_mem _ (ih h)

/-- A key present among the keys has a successful lookup. -/
theorem alookup_isSome_of_mem_keys {κ α : Type} [DecidableEq κ] {l : List (κ × α)} {k : κ}
    (h : k ∈ l.map Prod.fst) : (alookup l k).isSome := by
  induction l with
  | nil => simp at h
  | cons hd tl ih =>
    obtain ⟨k2, v2⟩ := hd
    by_cases hk : k2 = k
    · simp [alookup, hk]
    · simp only [List.map_cons, List.mem_cons] at h
      rcases h with h | h
    
      · exact absurd h.symm hk
      · simp [alookup, hk, ih h]

/-- Keys after an insert: unchanged when the key was present, extended by
the new key otherwise. -/
theorem keys_ainsert {κ α : Type} [DecidableEq κ] (l : List (κ × α)) (k : κ) (v : α) :
    (ainsert l k v).map Prod.fst =
      if k ∈ l.map Prod.fst then l.map Prod.fst else l.map Prod.fst ++ [k] := by
  induction l with
  | nil => simp [ainsert]
  | cons hd tl ih =>
    obtain ⟨k2, v2⟩ := hd
    by_cases h : k2 = k
    · subst h
      simp [ainsert]
    · have hne : ¬ k = k2 := fun hk => h hk.symm
      by_cases hmem : k ∈ tl.map Prod.fst
      · simp [ainsert, h, ih, hmem, hne]
      · simp [ainsert, h, ih, hmem, hne]

/-- Insertion preserves distinctness of keys. -/
theorem nodup_keys_ainsert {κ α : Type} [DecidableEq κ] {l : List (κ × α)} (k : κ) (v : α)
    (h : (l.map Prod.fst).Nodup) : ((ainsert l k v).map Prod.fst).Nodup := by
  rw [keys_ainsert]
  by_cases hmem : k ∈ l.map Prod.fst
  · simpa [hmem] using h
  · simp only [hmem, if_false]
    refine List.Nodup.append h (List.nodup_singleton k) ?_
    intro a ha hb
    simp at hb
    subst hb
    exact hmem ha

/-- The keys remaining after a removal form a sublist of the original keys. -/
theorem keys_aerase_sublist {κ α : Type} [DecidableEq κ] (l : List (κ × α)) (k : κ) :
    ((aerase l k).map Prod.fst).Sublist (l.map Prod.fst) := by
  induction l with
  | nil => simp [aerase]
  | cons hd tl ih =>
    obtain ⟨k2, v2⟩ := hd
    by_cases h : k2 = k
    · simp only [aerase, if_pos h, List.map_cons]
      exact (List.sublist_cons_self _ _)
    · simp only [aerase, if_neg h, List.map_cons]
      exact ih.cons₂ k2

/-- Removal preserves distinctness of keys. -/
theorem nodup_keys_aerase {κ α : Type} [DecidableEq κ] {l : List (κ × α)} (k : κ)
    (h : (l.map Prod.fst).Nodup) : ((aerase l k).map Prod.fst).Nodup :=
  h.sublist (keys_aerase_sublist l k)

/-- Removing an absent key is the identity. -/
theorem aerase_of_not_mem_keys {κ α : Type} [DecidableEq κ] {l : List (κ × α)} {k : κ}
    (h : k ∉ l.map Prod.fst) : aerase l k = l := by
  induction l with
  | nil => simp [aerase]
  | cons hd tl ih =>
    obtain ⟨k2, v2⟩ := hd
    simp only [List.map_cons, List.mem_cons] at h
    push_neg at h
    have hne : k2 ≠ k := fun hk => h.1 hk.symm
    simp [aerase, hne, ih h.2]

/-- One hub event preserves distinctness of the registry's identifiers. -/
theorem nodup_clients_applyOp (st : ChatServer) (op : HubOp)
    (h : (st.clients.map Prod.fst).Nodup) :
    (((applyOp st op).clients).map Prod.fst).Nodup := by
  cases op with
  | connect id r => exact nodup_keys_ainsert id _ h
  | disconnect id => exact nodup_keys_aerase id h
  | content msg keys => exact h
  | feature idOpt => exact h
  | subscribe cid name =>
    simp only [applyOp, handleSubscribeLayout]
    cases alookup st.clients cid with
    | none => exact h
    | some conn => exact nodup_keys_ainsert cid _ h
  | layoutUpdate layout => exact h
  | switchLayout name =>
    simp only [applyOp, handleSwitchLayout]
    cases alookup st.layout_store name with
    | none => exact h
    | some layout => exact h
  | saveLayout layout => exact h
  | deleteLayout name =>
    simp only [applyOp, handleDeleteLayout]
    by_cases hact : name = st.active_layout
    · simpa [hact] using h
    · simp only [if_neg hact]
      cases alookup st.layout_store name with
      | none => exact h
      | some layout => exact h

/-- Any event sequence preserves distinctness of the registry's
identifiers. -/
theorem nodup_clients_runOps (ops : List HubOp) (st : ChatServer)
    (h : (st.clients.map Prod.fst).Nodup) :
    (((runOps st ops).clients).map Prod.fst).Nodup := by
  induction ops generalizing st with
  | nil => exact h
  | cons op rest ih => exact ih _ (nodup_clients_applyOp st op h)

/-- Running an appended event list runs the two parts in order. -/
theorem runOps_append (st : ChatServer) (a b : List HubOp) :
    runOps st (a ++ b) = runOps (runOps st a) b :=
  List.foldl_append _ _ _ _

/-- The ingest handler stores the finished message in the cache under the
incoming message's id. -/
theorem chat_messages_handleContent (st : ChatServer) (msg : ChatMessage) (keys : List Nat) :
    ((handleContent st msg keys).1).chat_messages
      = ainsert st.chat_messages msg.id (handleContent st msg keys).2.1 :=
  rfl

/-- The length of an association list after an insert. -/
theorem length_ainsert {κ α : Type} [DecidableEq κ] (l : List (κ × α)) (k : κ) (v : α) :
    (ainsert l k v).length =
      if k ∈ l.map Prod.fst then l.length else l.length + 1 := by
  have h := congrArg List.length (keys_ainsert l k v)
  by_cases hm : k ∈ l.map Prod.fst
  · simp only [hm, if_true, List.length_map] at h
    simpa [hm] using h
  · simp only [hm, if_false, List.length_map, List.length_append, List.length_singleton] at h
    simpa [hm] using h

/-- After ingesting `mkMsg 0 … mkMsg (n-1)` the cache keys are exactly
`0 … n-1` in insertion order. -/
theorem keys_cache_contentOps (n : Nat) :
    (((runOps emptyHub (contentOps n)).chat_messages).map Prod.fst) = List.range n := by
  induction n with
  | zero => rfl
  | succ n ih =>
    have hops : contentOps (n + 1) = contentOps n ++ [HubOp.content (mkMsg n) []] := by
      simp [contentOps, List.range_succ]
    rw [hops, runOps_append]
    have happ : runOps (runOps emptyHub (contentOps n)) [HubOp.content (mkMsg n) []]
        = (handleContent (runOps emptyHub (contentOps n)) (mkMsg n) []).1 := rfl
    rw [happ, chat_messages_handleContent, keys_ainsert]
    have hid : (mkMsg n).id = n := rfl
    rw [hid, ih]
    simp [List.range_succ]

/-- After ingesting `n` distinct-id messages the cache holds exactly `n`
messages. -/
theorem cache_length_contentOps (n : Nat) :
    ((runOps emptyHub (contentOps n)).chat_messages).length = n := by
  have h := congrArg List.length (keys_cache_contentOps n)
  simpa using h

/-- Claim C2 counterexample: `Handler<Connect>` performs no collision check,
so when `rand::random` yields an identifier already registered (here 5,
drawn twice), `HashMap::insert` displaces the existing `Connection`: after
two Register events with the same drawn id and no Deregister, the registry
holds only the second connection and the first one is gone. -/
theorem C2_counterexample :
    (handleConnect (handleConnect emptyHub 5 11).1 5 22).1.clients
        = [(5, { id := 5, recipient := 22, subscribed_layout := none })]
      ∧ ({ id := 5, recipient := 11, subscribed_layout := none } : Connection)
          ∉ ((handleConnect (handleConnect emptyHub 5 11).1 5 22).1.clients).map Prod.snd := by
  exact ⟨rfl, by decide⟩

/-- Claim C2 (amended): under every sequence of hub events the connection
registry never holds two entries with the same identifier, and Deregister of
an identifier not in the registry leaves the hub state unchanged (a no-op);
however Register does not guarantee freshness of the drawn random id — a
colliding id displaces the existing Connection (see the counterexample). -/
theorem C2_registry_invariant :
    (∀ ops : List HubOp, (((runOps emptyHub ops).clients).map Prod.fst).Nodup)
      ∧ (∀ (st : ChatServer) (id : Nat),
          id ∉ st.clients.map Prod.fst → handleDisconnect st id = st) := by
  constructor
  · intro ops
    exact nodup_clients_runOps ops emptyHub (by simp [emptyHub, initialHub])
  · intro st id h
    simp [handleDisconnect, aerase_of_not_mem_keys h]

/-- Claim C2 witness: the invariant evaluated on a concrete event sequence,
and a concrete no-op Deregister of the unknown id 9. -/
theorem C2_registry_invariant_witness :
    (((runOps emptyHub [HubOp.connect 5 11, HubOp.disconnect 5]).clients).map Prod.fst).Nodup
      ∧ handleDisconnect emptyHub 9 = emptyHub :=
  ⟨C2_registry_invariant.1 [HubOp.connect 5 11, HubOp.disconnect 5],
   C2_registry_invariant.2 emptyHub 9 (by decide)⟩

/-- Claim C6 counterexample: the in-memory chat-message cache is not
bounded — for every proposed bound there is a reachable hub state whose
cache exceeds it, because `Handler<Content>` always inserts and never
evicts. -/
theorem C6_counterexample :
    ¬ ∃ B : Nat, ∀ ops : List HubOp,
        ((runOps emptyHub ops).chat_messages).length ≤ B := by
  rintro ⟨B, hB⟩
  have h := hB (contentOps (B + 1))
  rw [cache_length_contentOps] at h
  omega

/-- Claim C6 (amended): the cache is unbounded.  Ingest never removes cached
messages (one ingest never shrinks the cache), and ingesting `n` messages
with distinct ids from a fresh hub leaves exactly `n` messages in the cache;
only the backing capacity is grown in increments of 100. -/
theorem C6_cache_unbounded :
    (∀ (st : ChatServer) (msg : ChatMessage) (keys : List Nat),
        st.chat_messages.length ≤ (((handleContent st msg keys).1).chat_messages).length)
      ∧ (∀ n : Nat, ((runOps emptyHub (contentOps n)).chat_messages).length = n) := by
  constructor
  · intro st msg keys
    rw [chat_messages_handleContent, length_ainsert]
    by_cases hm : msg.id ∈ st.chat_messages.map Prod.fst
    · simp [hm]
    · simp [hm]
  · exact cache_length_contentOps

/-- Claim C1 counterexample: an unpaid message (amount 0) enters with
currency `"ZWL"` and leaves Ingest with its currency overwritten to
`"USD"` — the currency field is not left untouched. -/
theorem C1_counterexample :
    msgZWL.amount = 0
      ∧ msgZWL.currency = "ZWL".data
      ∧ (handleContent emptyHub msgZWL []).2.1.currency ≠ msgZWL.currency := by
  exact ⟨rfl, rfl, by decide⟩

/-- Claim C1 (amended): for every ingested message the stored and broadcast
message has `currency = "USD"` — unconditionally, also when `amount = 0`;
when `amount > 0` the stored amount is the Currency-Normalizer-converted USD
value, and when `amount` is not positive the stored amount is 0 and no
Persistent Store write occurs.  The finished message is cached under the
incoming id and broadcast to every registered connection. -/
theorem C1_currency_normalization :
    ∀ (st : ChatServer) (msg : ChatMessage) (keys : List Nat),
      (handleContent st msg keys).2.1.currency = "USD".data
      ∧ alookup ((handleContent st msg keys).1).chat_messages msg.id
          = some (handleContent st msg keys).2.1
      ∧ (handleContent st msg keys).2.2 = st.clients.map (fun c => c.1)
      ∧ (msg.amount > 0 →
          (handleContent st msg keys).2.1.amount
            = getUsd st.exchange_rates msg.currency msg.amount)
      ∧ (¬ msg.amount > 0 →
          (handleContent st msg keys).2.1.amount = 0
            ∧ ((handleContent st msg keys).1).database = st.database) := by
  intro st msg keys
  refine ⟨rfl, ?_, rfl, ?_, ?_⟩
  · rw [chat_messages_handleContent]
    exact alookup_ainsert_self _ _ _
  · intro h
    simp [handleContent, h]
  · intro h
    refine ⟨by simp [handleContent, h], by simp [handleContent, h]⟩

/-- Claim C1 witness: the paid branch on a 5 EUR message with rate table
EUR→USD = 1.08, and the unpaid branch on the `"ZWL"` message. -/
theorem C1_currency_normalization_witness :
    ((msgEUR.amount > 0)
        ∧ (handleContent stEUR msgEUR []).2.1.amount
            = getUsd stEUR.exchange_rates msgEUR.currency msgEUR.amount)
      ∧ ((¬ msgZWL.amount > 0)
        ∧ (handleContent emptyHub msgZWL []).2.1.amount = 0
        ∧ ((handleContent emptyHub msgZWL []).1).database = emptyHub.database) := by
  refine ⟨⟨by decide, (C1_currency_normalization stEUR msgEUR []).2.2.2.1 (by decide)⟩, ?_⟩
  have h := (C1_currency_normalization emptyHub msgZWL []).2.2.2.2 (by decide)
  exact ⟨by decide, h.1, h.2⟩

/-- Claim C5: Ingest escapes the five HTML metacharacters in username and
message via the fixed five-replacement chain `escapeHtml` (source order
`& " ' < >`, each pass applied once); with no emoji triples the delivered
message is exactly the escape of the input, and in particular `<b>hi</b>`
is delivered literally as `&lt;b&gt;hi&lt;/b&gt;` with no emoji markup (no
`<img` and indeed no raw `<` at all survives). -/
theorem C5_sanitization :
    (∀ (st : ChatServer) (msg : ChatMessage) (keys : List Nat),
        msg.emojis = [] →
          (handleContent st msg keys).2.1.message = escapeHtml msg.message
            ∧ (handleContent st msg keys).2.1.username = escapeHtml msg.username)
      ∧ (handleContent emptyHub msgHtml []).2.1.message = "&lt;b&gt;hi&lt;/b&gt;".data
      ∧ countOccs (handleContent emptyHub msgHtml []).2.1.message "<img".data = 0
      ∧ countOccs (handleContent emptyHub msgHtml []).2.1.message "<".data = 0 := by
  refine ⟨?_, by decide, by decide, by decide⟩
  intro st msg keys h
  constructor
  · show applyReplacements (tokenizePhase msg.emojis keys (escapeHtml msg.message)).1
        (tokenizePhase msg.emojis keys (escapeHtml msg.message)).2 = escapeHtml msg.message
    simp [h, tokenizePhase, applyReplacements]
  · rfl

/-- Claim C5 witness: the general no-emoji statement evaluated on the
concrete `<b>hi</b>` message. -/
theorem C5_sanitization_witness :
    msgHtml.emojis = []
      ∧ ((handleContent emptyHub msgHtml []).2.1.message = escapeHtml msgHtml.message
          ∧ (handleContent emptyHub msgHtml []).2.1.username = escapeHtml msgHtml.username) :=
  ⟨rfl, C5_sanitization.1 emptyHub msgHtml [] rfl⟩

/-- Claim C8: DeleteLayout of the currently active layout name is rejected
synchronously with the descriptive error `Cannot delete the active layout`,
the layout store's delete is not invoked, and the hub state (registry,
cache, active layout, stores) is returned unchanged. -/
theorem C8_delete_active_rejected :
    ∀ (st : ChatServer) (name : Str), name = st.active_layout →
      handleDeleteLayout st name
        = (Except.error "Cannot delete the active layout".data, st, false) := by
  intro st name h
  simp [handleDeleteLayout, h]

/-- Claim C8 witness: deleting `"default"` while `"default"` is active. -/
theorem C8_delete_active_rejected_witness :
    ("default".data : Str) = emptyHub.active_layout
      ∧ handleDeleteLayout emptyHub "default".data
          = (Except.error "Cannot delete the active layout".data, emptyHub, false) :=
  ⟨rfl, C8_delete_active_rejected emptyHub "default".data rfl⟩

/-- Claim C9: a paid message in a currency that is neither `"USD"` nor in
the rate table converts to 0, and is still sanitized, cached, and broadcast
to every connection with `amount = 0` and `currency = "USD"`, while no
Persistent Store write occurs — the persistence gate tests the
post-conversion USD amount, not the original amount. -/
theorem C9_unknown_currency :
    ∀ (st : ChatServer) (msg : ChatMessage) (keys : List Nat),
      msg.amount > 0 →
      msg.currency ≠ "USD".data →
      alookup st.exchange_rates msg.currency = none →
        (handleContent st msg keys).2.1.amount = 0
          ∧ (handleContent st msg keys).2.1.currency = "USD".data
          ∧ (handleContent st msg keys).2.1.username = escapeHtml msg.username
          ∧ alookup ((handleContent st msg keys).1).chat_messages msg.id
              = some (handleContent st msg keys).2.1
          ∧ (handleContent st msg keys).2.2 = st.clients.map (fun c => c.1)
          ∧ ((handleContent st msg keys).1).database = st.database := by
  intro st msg keys hpos hcur hrate
  have husd : getUsd st.exchange_rates msg.currency msg.amount = 0 := by
    simp [getUsd, hcur, hrate]
  refine ⟨?_, rfl, rfl, ?_, rfl, ?_⟩
  · simp [handleContent, hpos, husd]
  · rw [chat_messages_handleContent]
    exact alookup_ainsert_self _ _ _
  · simp [handleContent, hpos, husd]

/-- Claim C9 witness: a 2 BTC message against the EUR-only rate table. -/
theorem C9_unknown_currency_witness :
    (msgBTC.amount > 0 ∧ msgBTC.currency ≠ "USD".data
        ∧ alookup stBTC.exchange_rates msgBTC.currency = none)
      ∧ (handleContent stBTC msgBTC []).2.1.amount = 0
      ∧ ((handleContent stBTC msgBTC []).1).database = stBTC.database
      ∧ (handleContent stBTC msgBTC []).2.2 = [1] := by
  have h := C9_unknown_currency stBTC msgBTC [] (by decide) (by decide) (by decide)
  exact ⟨⟨by decide, by decide, by decide⟩, h.1, h.2.2.2.2.2, h.2.2.2.2.1⟩

/-- Claim C10: Feature is idempotent — for an id that resolves, Feature(id)
twice sets the same FeaturedMessage both times, leaves the state of the
second call equal to that of the first, returns the same message, emits an
equivalent feature payload, and both broadcasts go to every connection. -/
theorem C10_feature_idempotent :
    ∀ (st : ChatServer) (id : Nat) (m : ChatMessage),
      resolveFeatured st id = some m →
        (handleFeatureMessage st (some id)).1.featured_message = some m
          ∧ (handleFeatureMessage ((handleFeatureMessage st (some id)).1) (some id)).1
              = (handleFeatureMessage st (some id)).1
          ∧ (handleFeatureMessage ((handleFeatureMessage st (some id)).1) (some id)).2.2.1
              = (handleFeatureMessage st (some id)).2.2.1
          ∧ (handleFeatureMessage ((handleFeatureMessage st (some id)).1) (some id)).2.1
              = (handleFeatureMessage st (some id)).2.1
          ∧ (handleFeatureMessage st (some id)).2.2.2 = st.clients.map (fun c => c.1)
          ∧ (handleFeatureMessage ((handleFeatureMessage st (some id)).1) (some id)).2.2.2
              = st.clients.map (fun c => c.1) := by
  intro st id m h
  refine ⟨?_, rfl, rfl, rfl, rfl, rfl⟩
  simp [handleFeatureMessage, h]

/-- Claim C10 witness: featuring the cached message 7 twice. -/
theorem C10_feature_idempotent_witness :
    resolveFeatured stFeat 7 = some (mkMsg 7)
      ∧ (handleFeatureMessage stFeat (some 7)).1.featured_message = some (mkMsg 7)
      ∧ (handleFeatureMessage ((handleFeatureMessage stFeat (some 7)).1) (some 7)).1
          = (handleFeatureMessage stFeat (some 7)).1 := by
  have h := C10_feature_idempotent stFeat 7 (mkMsg 7) (by decide)
  exact ⟨by decide, h.1, h.2.1⟩

/-- With distinct keys, looking every key of the list back up returns
exactly the stored values in order. -/
theorem filterMap_alookup_self {κ α : Type} [DecidableEq κ] (l : List (κ × α))
    (h : (l.map Prod.fst).Nodup) :
    (l.map Prod.fst).filterMap (fun k => alookup l k) = l.map Prod.snd := by
  induction l with
  | nil => rfl
  | cons hd tl ih =>
    obtain ⟨k, v⟩ := hd
    simp only [List.map_cons, List.nodup_cons] at h
    obtain ⟨hk, htl⟩ := h
    have hhead : alookup ((k, v) :: tl) k = some v := by simp [alookup]
    simp only [List.map_cons, List.filterMap_cons, hhead]
    have hrest : (tl.map Prod.fst).filterMap (fun k2 => alookup ((k, v) :: tl) k2)
        = (tl.map Prod.fst).filterMap (fun k2 => alookup tl k2) := by
      apply List.filterMap_congr
      intro k2 hk2
      have hne : ¬ k = k2 := fun he => hk (he ▸ hk2)
      simp [alookup, hne]
    rw [hrest, ih htl]

/-- Looking up keys that are all present yields one value per key. -/
theorem length_filterMap_alookup {κ α : Type} [DecidableEq κ] (l : List (κ × α))
    (kl : List κ) (h : ∀ k ∈ kl, k ∈ l.map Prod.fst) :
    (kl.filterMap (fun k => alookup l k)).length = kl.length := by
  induction kl with
  | nil => rfl
  | cons k rest ih =>
    have hk := alookup_isSome_of_mem_keys (h k (List.mem_cons_self _ _))
    obtain ⟨v, hv⟩ := Option.isSome_iff_exists.mp hk
    simp only [List.filterMap_cons, hv, List.length_cons]
    rw [ih (fun k2 h2 => h k2 (List.mem_cons_of_mem _ h2))]

/-- Every value produced by looking keys up comes from an entry of the
association list. -/
theorem mem_of_mem_filterMap_alookup {κ α : Type} [DecidableEq κ]
    {l : List (κ × α)} {kl : List κ} {m : α}
    (h : m ∈ kl.filterMap (fun k => alookup l k)) : ∃ k, (k, m) ∈ l := by
  rw [List.mem_filterMap] at h
  obtain ⟨k, _, hk⟩ := h
  exact ⟨k, alookup_eq_some_mem hk⟩

set_option maxRecDepth 10000 in
/-- Claim C3 counterexample: a 101-entry cache whose (unspecified) map
iteration order ends with the oldest message.  `RecentMessages` drops all
but the last 100 keys in iteration order, so it returns the oldest message
(receipt time 1) while omitting the cached, strictly more recent message
with receipt time 2 — the result is not the 100 most-recently-received
subset. -/
theorem C3_counterexample :
    100 < cache101.length
      ∧ (cache101.map Prod.fst).Nodup
      ∧ mkMsg 1 ∈ handleRecentMessages cache101
      ∧ mkMsg 2 ∉ handleRecentMessages cache101
      ∧ (2, mkMsg 2) ∈ cache101
      ∧ (mkMsg 1).received_at < (mkMsg 2).received_at := by
  exact ⟨by decide, by decide, by decide, by decide, by decide, by decide⟩

/-- Claim C3 (amended): for a cache with distinct keys, `RecentMessages`
always returns messages sorted ascending by receipt time; with at most 100
cached messages it returns all of them (up to order); with at least 100 it
returns exactly 100 cached messages — but which 100 is determined by the
map's unspecified iteration order (the last 100 keys in that order), not by
receipt time, so the returned subset need not be the most recent one. -/
theorem C3_recent_messages :
    ∀ cache : List (Nat × ChatMessage),
      (cache.map Prod.fst).Nodup →
        (handleRecentMessages cache).Sorted receivedLe
          ∧ (cache.length ≤ 100 →
              (handleRecentMessages cache).Perm (cache.map Prod.snd))
          ∧ (100 ≤ cache.length → (handleRecentMessages cache).length = 100)
          ∧ (∀ m ∈ handleRecentMessages cache, ∃ k, (k, m) ∈ cache) := by
  intro cache hnodup
  refine ⟨List.sorted_insertionSort receivedLe _, ?_, ?_, ?_⟩
  · intro hle
    simp only [handleRecentMessages]
    by_cases h100 : cache.length ≥ 100
    · have heq : cache.length - 100 = 0 := by omega
      rw [if_pos h100, heq, List.drop_zero, filterMap_alookup_self cache hnodup]
      exact List.perm_insertionSort receivedLe _
    · rw [if_neg h100]
      exact List.perm_insertionSort receivedLe _
  · intro hge
    simp only [handleRecentMessages]
    rw [if_pos hge, List.length_insertionSort]
    have hmem : ∀ k ∈ (cache.map Prod.fst).drop (cache.length - 100),
        k ∈ cache.map Prod.fst := fun k hk => List.mem_of_mem_drop hk
    rw [length_filterMap_alookup _ _ hmem, List.length_drop, List.length_map]
    omega
  · intro m hm
    simp only [handleRecentMessages] at hm
    rw [List.mem_insertionSort] at hm
    by_cases h100 : cache.length ≥ 100
    · rw [if_pos h100] at hm
      exact mem_of_mem_filterMap_alookup hm
    · rw [if_neg h100] at hm
      obtain ⟨⟨k, v⟩, hkv, hv⟩ := List.mem_map.mp hm
      exact ⟨k, hv ▸ hkv⟩

set_option maxRecDepth 10000 in
/-- Claim C3 witness: the amended statement evaluated on the 101-entry cache
and on a single-entry cache. -/
theorem C3_recent_messages_witness :
    (handleRecentMessages cache101).Sorted receivedLe
      ∧ (handleRecentMessages cache101).length = 100
      ∧ (handleRecentMessages [(1, mkMsg 1)]).Perm ([(1, mkMsg 1)].map Prod.snd) := by
  have h := C3_recent_messages cache101 (by decide)
  have h2 := C3_recent_messages [(1, mkMsg 1)] (by decide)
  exact ⟨h.1, h.2.2.1 (by decide), h2.2.1 (by decide)⟩

/-- Claim C7: a layout broadcast reaches exactly the connections whose
subscription is `None` or equals the layout's name; Switch (on a successful
load), Save and Update all broadcast through this filter; and in the
concrete scenario with unsubscribed connection A (id 1) and connection B
(id 2) subscribed to `"alt"`, Switch to `"alt"` reaches both while Switch
to `"default"` reaches A only. -/
theorem C7_layout_broadcast_routing :
    (∀ (clients : List (Nat × Connection)) (layout : Layout) (cid : Nat),
        cid ∈ broadcastLayoutTargets clients layout ↔
          ∃ conn, (cid, conn) ∈ clients
            ∧ (conn.subscribed_layout = none
                ∨ conn.subscribed_layout = some layout.name))
      ∧ (∀ (st : ChatServer) (name : Str) (layout : Layout),
          alookup st.layout_store name = some layout →
            handleSwitchLayout st name
              = (Except.ok (), { st with active_layout := name },
                  broadcastLayoutTargets st.clients layout))
      ∧ (∀ (st : ChatServer) (layout : Layout),
          (handleSaveLayout st layout).2.2 = broadcastLayoutTargets st.clients layout
            ∧ handleLayoutUpdate st layout = broadcastLayoutTargets st.clients layout)
      ∧ (handleSwitchLayout stC7 "alt".data).2.2 = [1, 2]
      ∧ (handleSwitchLayout stC7 "default".data).2.2 = [1] := by
  refine ⟨?_, ?_, fun st layout => ⟨rfl, rfl⟩, by decide, by decide⟩
  · intro clients layout cid
    simp only [broadcastLayoutTargets, List.mem_map, List.mem_filter]
    constructor
    · rintro ⟨⟨k, conn⟩, ⟨hmem, hp⟩, hfst⟩
      have hk : k = cid := hfst
      subst hk
      refine ⟨conn, hmem, ?_⟩
      cases hsub : conn.subscribed_layout with
      | none => exact Or.inl rfl
      | some s =>
        right
        rw [hsub] at hp
        simp only [beq_iff_eq] at hp
        rw [hp]
    · rintro ⟨conn, hmem, hor⟩
      refine ⟨(cid, conn), ⟨hmem, ?_⟩, rfl⟩
      rcases hor with h | h
      · simp [h]
      · simp [h]
  · intro st name layout h
    simp [handleSwitchLayout, h]

/-- Claim C7 witness: the successful-Switch equation discharged on the
concrete scenario hub with the stored `"alt"` layout. -/
theorem C7_layout_broadcast_routing_witness :
    alookup stC7.layout_store "alt".data = some layoutAlt
      ∧ handleSwitchLayout stC7 "alt".data
          = (Except.ok (), { stC7 with active_layout := "alt".data },
              broadcastLayoutTargets stC7.clients layoutAlt) :=
  ⟨by decide, C7_layout_broadcast_routing.2.1 stC7 "alt".data layoutAlt (by decide)⟩

/-- Claim C4 counterexample: the claim quantifies over every list of emoji
substitution triples, but a find pattern may collide with the token syntax.
In `msgC4` the find pattern `x` occurs once, then the second emoji's find
pattern `<` rewrites the `<` of the token standing for that occurrence, so
the first emoji's rendered markup appears zero times in the final message
instead of exactly once. -/
theorem C4_counterexample :
    countOccs msgC4.message "x".data = 1
      ∧ msgC4.emojis = [("x".data, "u".data, "n".data), ("<".data, "u2".data, "n2".data)]
      ∧ countOccs (handleContent emptyHub msgC4 [1, 2]).2.1.message
          (emojiMarkup (escapeHtml "u".data) "n".data) = 0 := by
  exact ⟨by decide, rfl, by decide⟩


/-- Evaluating the replacement worker on the empty string ignores the fuel. -/
theorem replaceAllGo_nil (find repl : Str) (fuel : Nat) :
    replaceAllGo find repl fuel [] = [] := by
  cases fuel <;> rfl

/-- The worker's result does not depend on the fuel once the fuel covers the
input length (every step consumes at least one character). -/
theorem replaceAllGo_fuel (find repl : Str) (hf : find ≠ []) :
    ∀ (fuel fuel2 : Nat) (s : Str), s.length ≤ fuel → s.length ≤ fuel2 →
      replaceAllGo find repl fuel s = replaceAllGo find repl fuel2 s := by
  have hfl : 0 < find.length := List.length_pos.mpr hf
  intro fuel
  induction fuel with
  | zero =>
    intro fuel2 s h1 _
    have hs : s = [] := List.length_eq_zero.mp (Nat.le_zero.mp h1)
    subst hs
    rw [replaceAllGo_nil, replaceAllGo_nil]
  | succ n ih =>
    intro fuel2 s h1 h2
    cases s with
    | nil => rw [replaceAllGo_nil, replaceAllGo_nil]
    | cons c rest =>
      cases fuel2 with
      | zero => simp at h2
      | succ m =>
        simp only [replaceAllGo]
        by_cases hp : find.isPrefixOf (c :: rest)
        · rw [if_pos hp, if_pos hp]
          congr 1
          apply ih
          · simp only [List.length_drop, List.length_cons] at h1 ⊢
            omega
          · simp only [List.length_drop, List.length_cons] at h2 ⊢
            omega
        · rw [if_neg hp, if_neg hp]
          congr 1
          apply ih
          · simp only [List.length_cons] at h1
            omega
          · simp only [List.length_cons] at h2
            omega

/-- Replacement on the empty string is the empty string. -/
theorem replaceAll_nil (find repl : Str) : replaceAll [] find repl = [] := by
  by_cases hf : find = []
  · simp [replaceAll, hf]
  · simp [replaceAll, hf, replaceAllGo_nil]

/-- Replacement step on a match at the head: emit the replacement text and
continue after the matched pattern — the emitted text is never rescanned. -/
theorem replaceAll_cons_pos (find repl s : Str) (hf : find ≠ [])
    (hp : find.isPrefixOf s) :
    replaceAll s find repl = repl ++ replaceAll (s.drop find.length) find repl := by
  have hfl : 0 < find.length := List.length_pos.mpr hf
  cases s with
  | nil =>
    exfalso
    cases find with
    | nil => exact hf rfl
    | cons a l => simp at hp
  | cons c rest =>
    simp only [replaceAll, if_neg hf, List.length_cons]
    rw [show replaceAllGo find repl (rest.length + 1) (c :: rest)
        = if find.isPrefixOf (c :: rest) then
            repl ++ replaceAllGo find repl rest.length ((c :: rest).drop find.length)
          else c :: replaceAllGo find repl rest.length rest from rfl]
    rw [if_pos hp]
    congr 1
    apply replaceAllGo_fuel find repl hf
    · simp only [List.length_drop, List.length_cons]
      omega
    · exact Nat.le_refl _

/-- Replacement step when the head does not start a match: keep the head
character and continue on the tail. -/
theorem replaceAll_cons_neg (find repl : Str) (c : Char) (rest : Str) (hf : find ≠ [])
    (hp : ¬ find.isPrefixOf (c :: rest)) :
    replaceAll (c :: rest) find repl = c :: replaceAll rest find repl := by
  simp only [replaceAll, if_neg hf, List.length_cons]
  rw [show replaceAllGo find repl (rest.length + 1) (c :: rest)
      = if find.isPrefixOf (c :: rest) then
          repl ++ replaceAllGo find repl rest.length ((c :: rest).drop find.length)
        else c :: replaceAllGo find repl rest.length rest from rfl]
  rw [if_neg hp]

/-- A replacement pass introduces no character that is absent from both the
input and the replacement text. -/
theorem not_mem_replaceAll {c : Char} {repl : Str} (find : Str) (hrepl : c ∉ repl) :
    ∀ s : Str, c ∉ s → c ∉ replaceAll s find repl
  | [], _ => by
    rw [replaceAll_nil]
    exact List.not_mem_nil c
  | ch :: rest, hs => by
    by_cases hf : find = []
    · simpa [replaceAll, hf] using hs
    · by_cases hp : find.isPrefixOf (ch :: rest)
      · rw [replaceAll_cons_pos find repl (ch :: rest) hf hp]
        intro hmem
        rcases List.mem_append.mp hmem with h | h
        · exact hrepl h
        · exact not_mem_replaceAll find hrepl ((ch :: rest).drop find.length)
            (fun hd => hs (List.mem_of_mem_drop hd)) h
      · rw [replaceAll_cons_neg find repl ch rest hf hp]
        intro hmem
        rcases List.mem_cons.mp hmem with h | h
        · exact hs (h ▸ List.mem_cons_self _ _)
        · exact not_mem_replaceAll find hrepl rest
            (fun hr => hs (List.mem_cons_of_mem _ hr)) h
termination_by s => s.length
decreasing_by
  · have : 0 < find.length := List.length_pos.mpr hf
    simp only [List.length_drop, List.length_cons]
    omega
  · simp

/-- Replacing the single-character pattern `[c]` eliminates every `c` as
long as the replacement text contains none. -/
theorem not_mem_replaceAll_single {c : Char} {repl : Str} (hrepl : c ∉ repl) :
    ∀ s : Str, c ∉ replaceAll s [c] repl
  | [] => by
    rw [replaceAll_nil]
    exact List.not_mem_nil c
  | ch :: rest => by
    have hf : ([c] : Str) ≠ [] := by simp
    by_cases hc : c = ch
    · subst hc
      have hp : ([c] : Str).isPrefixOf (c :: rest) := by
        simp [List.isPrefixOf]
      rw [replaceAll_cons_pos [c] repl (c :: rest) hf hp]
      intro hmem
      rcases List.mem_append.mp hmem with h | h
      · exact hrepl h
      · exact not_mem_replaceAll_single hrepl rest h
    · have hp : ¬ ([c] : Str).isPrefixOf (ch :: rest) := by
        rw [List.isPrefixOf_cons₂]
        simp [hc]
      rw [replaceAll_cons_neg [c] repl ch rest hf hp]
      intro hmem
      rcases List.mem_cons.mp hmem with h | h
      · exact hc h
      · exact not_mem_replaceAll_single hrepl rest h
termination_by s => s.length

/-- Escaped text contains no raw `<`: the escape's fourth pass removes every
`<` and the fifth pass reintroduces none. -/
theorem escapeHtml_no_lt (s : Str) : '<' ∉ escapeHtml s := by
  have h4 : '<' ∉ replaceAll (replaceAll (replaceAll (replaceAll s
      "&".data "&amp;".data) "\"".data "&quot".data) [aposChar] "&#039;".data)
      "<".data "&lt;".data := by
    rw [show ("<".data : Str) = ['<'] from rfl]
    exact not_mem_replaceAll_single (by decide) _
  exact not_mem_replaceAll ">".data (by decide) _ h4

/-- Two-phase token substitution for one pattern collapses to one direct
substitution.  In text with no raw `<` (as all escaped text is), replacing
every occurrence of `find` by the token `<k>` and then replacing every token
by the markup gives exactly the direct replacement of `find` by the markup:
each original occurrence is substituted once, and the markup — which may
itself contain `find` — is emitted, never rescanned. -/
theorem replaceAll_token_roundtrip (find markup : Str) (k : Nat) (hf : find ≠ []) :
    ∀ s : Str, '<' ∉ s →
      replaceAll (replaceAll s find (tokenOf k)) (tokenOf k) markup
        = replaceAll s find markup
  | [], _ => by rw [replaceAll_nil, replaceAll_nil, replaceAll_nil]
  | c :: rest, hs => by
    have htok : tokenOf k ≠ [] := by simp [tokenOf]
    by_cases hp : find.isPrefixOf (c :: rest)
    · rw [replaceAll_cons_pos find (tokenOf k) (c :: rest) hf hp,
          replaceAll_cons_pos find markup (c :: rest) hf hp]
      have hpre : (tokenOf k).isPrefixOf
          (tokenOf k ++ replaceAll ((c :: rest).drop find.length) find (tokenOf k)) := by
        rw [List.isPrefixOf_iff_prefix]
        exact List.prefix_append _ _
      rw [replaceAll_cons_pos (tokenOf k) markup _ htok hpre, List.drop_left]
      congr 1
      exact replaceAll_token_roundtrip find markup k hf ((c :: rest).drop find.length)
        (fun hd => hs (List.mem_of_mem_drop hd))
    · have hc : c ≠ '<' := fun he => hs (he ▸ List.mem_cons_self _ _)
      rw [replaceAll_cons_neg find (tokenOf k) c rest hf hp]
      have hnp : ¬ (tokenOf k).isPrefixOf (c :: replaceAll rest find (tokenOf k)) := by
        intro h
        rw [show tokenOf k = '<' :: ((toString k).data ++ [ '>' ]) from rfl] at h
        rw [List.isPrefixOf_cons₂, Bool.and_eq_true, beq_iff_eq] at h
        exact hc h.1.symm
      rw [replaceAll_cons_neg (tokenOf k) markup c _ htok hnp,
          replaceAll_cons_neg find markup c rest hf hp]
      congr 1
      exact replaceAll_token_roundtrip find markup k hf rest
        (fun hr => hs (List.mem_cons_of_mem _ hr))
termination_by s => s.length
decreasing_by
  · have : 0 < find.length := List.length_pos.mpr hf
    simp only [List.length_drop, List.length_cons]
    omega
  · simp

set_option maxRecDepth 10000 in
/-- Claim C4 (amended): for a single emoji substitution triple with a
nonempty find pattern, the delivered message is exactly the sanitized
message with every occurrence of the find pattern replaced once by the
emoji's rendered markup — substitution is non-recursive because replaced
output is never rescanned, even when the emoji's own URL or name contains
the find pattern.  In the spec's two-emoji nested scenario (`msgC4b`, the
second emoji's URL and name contain the first emoji's find pattern, three
occurrences inside the rendered markup) each markup appears exactly once
per original find occurrence, identically under the reversed
replacement-map iteration order.  For arbitrary emoji lists exactly-once
fails: a later emoji's find pattern overlapping a previously placed token's
text destroys that token — with find `<` (see the counterexample) and
equally with the `<`-free find `1>` against token `<1>` (`msgC4c`, last
conjunct), so the earlier emoji's markup appears zero times. -/
theorem C4_emoji_substitution :
    (∀ (st : ChatServer) (msg : ChatMessage) (k : Nat) (find url name : Str),
        msg.emojis = [(find, url, name)] → find ≠ [] →
          (handleContent st msg [k]).2.1.message
            = replaceAll (escapeHtml msg.message) find (emojiMarkup (escapeHtml url) name))
      ∧ countOccs msgC4b.message ":a:".data = 1
      ∧ countOccs msgC4b.message ":b:".data = 1
      ∧ countOccs (emojiMarkup (escapeHtml "x:a:y".data) "n:a:".data) ":a:".data = 3
      ∧ (handleContent emptyHub msgC4b [10, 20]).2.1.message
          = "hello ".data ++ emojiMarkup (escapeHtml "urlA".data) "nameA".data
            ++ " and ".data ++ emojiMarkup (escapeHtml "x:a:y".data) "n:a:".data
      ∧ countOccs (handleContent emptyHub msgC4b [10, 20]).2.1.message
          (emojiMarkup (escapeHtml "urlA".data) "nameA".data) = 1
      ∧ countOccs (handleContent emptyHub msgC4b [10, 20]).2.1.message
          (emojiMarkup (escapeHtml "x:a:y".data) "n:a:".data) = 1
      ∧ applyReplacements
            (tokenizePhase msgC4b.emojis [10, 20] (escapeHtml msgC4b.message)).1
            [(20, emojiMarkup (escapeHtml "x:a:y".data) "n:a:".data),
             (10, emojiMarkup (escapeHtml "urlA".data) "nameA".data)]
          = (handleContent emptyHub msgC4b [10, 20]).2.1.message
      ∧ countOccs (handleContent emptyHub msgC4c [1, 2]).2.1.message
          (emojiMarkup (escapeHtml "u".data) "n".data) = 0 := by
  refine ⟨?_, by decide, by decide, by decide, by decide, by decide, by decide,
    by decide, by decide⟩
  intro st msg k find url name he hf
  have hmsg : (handleContent st msg [k]).2.1.message
      = applyReplacements (tokenizePhase msg.emojis [k] (escapeHtml msg.message)).1
          (tokenizePhase msg.emojis [k] (escapeHtml msg.message)).2 := rfl
  rw [hmsg, he]
  show replaceAll (replaceAll (escapeHtml msg.message) find (tokenOf k)) (tokenOf k)
      (emojiMarkup (escapeHtml url) name) = _
  exact replaceAll_token_roundtrip find (emojiMarkup (escapeHtml url) name) k hf
    (escapeHtml msg.message) (escapeHtml_no_lt msg.message)

/-- Claim C4 witness: the single-emoji statement discharged on a concrete
message whose emoji's own name contains the find pattern. -/
theorem C4_emoji_substitution_witness :
    msgC4d.emojis = [(":a:".data, "u&rl".data, "n:a:me".data)]
      ∧ (":a:".data : Str) ≠ []
      ∧ (handleContent emptyHub msgC4d [5]).2.1.message
          = replaceAll (escapeHtml msgC4d.message) ":a:".data
              (emojiMarkup (escapeHtml "u&rl".data) "n:a:me".data) :=
  ⟨rfl, by decide,
   C4_emoji_substitution.1 emptyHub msgC4d 5 ":a:".data "u&rl".data "n:a:me".data rfl
     (by decide)⟩
